/-
Verification of the runn scenario-execution engine core against its design
specification.  The Go sources (operator.go, the DB runner file, result.go)
are shallowly embedded below: pure Go functions become Lean functions over
lists of characters and association lists; the database driver, the YAML
codec, the regexp engine and the expression evaluator are external
collaborators and appear as abstract parameters ("oracles") with their
interface laws taken as hypotheses where a theorem needs them.
-/
import Mathlib

set_option maxHeartbeats 1000000

namespace Runn

/-! ## Character and string helpers (shared by all embeddings) -/

/-- The single-quote character, written numerically to keep the source ASCII-clean. -/
def squoteChar : Char := Char.ofNat 39

/-- The double-quote character. -/
def dquoteChar : Char := Char.ofNat 34

/-- The backslash character. -/
def backslashChar : Char := Char.ofNat 92

/-- The opening-brace character. -/
def obraceChar : Char := Char.ofNat 123

/-- Whether `needle` occurs at the head of `hay` (Go `strings.HasPrefix` on rune lists). -/
def startsWithL : List Char → List Char → Bool
  | _, [] => true
  | [], _ :: _ => false
  | c :: cs, d :: ds => c = d && startsWithL cs ds

/-- Whether `needle` occurs anywhere inside `hay` (Go `strings.Contains` on rune lists). -/
def hasSubL : List Char → List Char → Bool
  | hay, needle =>
    match hay with
    | [] => needle.isEmpty
    | _ :: cs => startsWithL hay needle || hasSubL cs needle

/-- Substring test on `String` values. -/
def hasSubS (hay needle : String) : Bool := hasSubL hay.data needle.data

/-- Go `strings.ToUpper`, character by character. -/
def upperStr (s : String) : String := String.mk (s.data.map Char.toUpper)

/-- Drop characters belonging to `cut` from the front of `s` (half of Go `strings.Trim`). -/
def trimLeftSet (cut : List Char) (s : List Char) : List Char :=
  s.dropWhile (fun c => cut.contains c)

/-- Drop characters belonging to `cut` from the back of `s` (Go `strings.TrimRight`). -/
def trimRightSet (cut : List Char) (s : List Char) : List Char :=
  (s.reverse.dropWhile (fun c => cut.contains c)).reverse

/-- Go `strings.Trim`: drop `cut` characters from both ends. -/
def trimSet (cut : List Char) (s : List Char) : List Char :=
  trimRightSet cut (trimLeftSet cut s)

/-! ## Statement separation (`separateStmt` in the DB runner source) -/

/-- Cutset used when trimming each separated statement: space and newline. -/
def stmtCutset : List Char := [' ', '\n']

/-- Cutset used on the trailing fragment: space, newline, backslash, the letter n,
and a double quote (the workaround cutset in the source). -/
def tailCutset : List Char := [' ', '\n', backslashChar, 'n', dquoteChar]

/-- The character loop of `separateStmt`: accumulate characters into `s`, toggle the
single/double-quote flags, and cut a statement at every unquoted semicolon.
Returns the list of cut statements and the leftover fragment. -/
def sepCore (acc : List (List Char)) (s : List Char) (ins ind : Bool) :
    List Char → List (List Char) × List Char
  | [] => (acc, s)
  | c :: cs =>
    let s2 := s ++ [c]
    if c = squoteChar then sepCore acc s2 (!ins) ind cs
    else if c = dquoteChar then sepCore acc s2 ins (!ind) cs
    else if c = ';' then
      if !ins && !ind then sepCore (acc ++ [trimSet stmtCutset s2]) [] ins ind cs
      else sepCore acc s2 ins ind cs
    else sepCore acc s2 ins ind cs

/-- `separateStmt` from the DB runner source: fast path when the script holds no
semicolon, otherwise the quote-aware loop plus the trailing-fragment workaround. -/
def separateStmt (stmt : String) : List String :=
  if stmt.data.contains ';' = false then [stmt]
  else
    let r := sepCore [] [] false false stmt.data
    let l := trimRightSet tailCutset r.2
    if l.isEmpty then r.1.map String.mk
    else (r.1 ++ [l]).map String.mk

/-- Count of semicolons that sit outside every single- or double-quoted literal,
scanning with the same quote-state automaton as `sepCore`. -/
def cntUS (ins ind : Bool) : List Char → Nat
  | [] => 0
  | c :: cs =>
    if c = squoteChar then cntUS (!ins) ind cs
    else if c = dquoteChar then cntUS ins (!ind) cs
    else if c = ';' then
      if !ins && !ind then 1 + cntUS ins ind cs else cntUS ins ind cs
    else cntUS ins ind cs

/-! ## DB runner (`dbRunner.Run`, column coercion, transaction handling)

The database driver and the standard-library parsers (`strconv.ParseFloat`,
`strconv.Atoi`, `dateparse.ParseStrict`, `json.Unmarshal`) are external;
they appear below as abstract oracle functions.  Everything else mirrors
the Go source. -/

/-- Dynamic values stored in result rows.  The payloads produced by the abstract
parsers (floats, dates, JSON documents) are carried opaquely: the claims under
verification concern dispatch and error propagation, not float arithmetic. -/
inductive Value where
  | vnull
  | vbool (b : Bool)
  | vint (n : Int)
  | vstr (s : String)
  | vnum (lex : String)
  | vtagged (tag : String)
deriving DecidableEq, Repr

/-- A raw column value as delivered by the driver: either a byte slice or an
already-typed value. -/
inductive ColVal where
  | bytes (s : String)
  | typed (v : Value)
deriving DecidableEq, Repr

/-- Abstract stdlib/third-party parsers used by the coercion switch.
`none` models a parse failure. -/
structure Parsers where
  parseFloat : String → Option Value
  parseDate : String → Option Value
  parseJson : String → Option Value
  parseInt : String → Option Value

/-- Errors surfaced by the embedded code.  Constructors carry just enough
payload to distinguish the sources the claims talk about. -/
inductive GoErr where
  | stmtE (msg : String)
  | invalidColumn (col typ val : String)
  | noClient (key : String)
  | invalidCond (which : String)
  | invalidFormat
  | other (msg : String)
deriving DecidableEq, Repr

/-- The column-coercion switch of `dbRunner.Run` (lines 141-178 of the source):
byte values are coerced by the uppercased driver type name, already-typed
values pass through unchanged. -/
def coerceColumn (P : Parsers) (c : String) (t0 : String) (cv : ColVal) : Except GoErr Value :=
  match cv with
  | .typed v => .ok v
  | .bytes s =>
    let t := upperStr t0
    if hasSubS t "TEXT" || hasSubS t "CHAR" || t == "TIME" then .ok (.vstr s)
    else if t == "DECIMAL" || t == "FLOAT" || t == "DOUBLE" then
      match P.parseFloat s with
      | some v => .ok v
      | none => .error (.invalidColumn c t s)
    else if t == "DATE" || t == "TIMESTAMP" || t == "DATETIME" then
      match P.parseDate s with
      | some v => .ok v
      | none => .error (.invalidColumn c t s)
    else if hasSubS t "JSONB" then
      match P.parseJson s with
      | some v => .ok v
      | none => .error (.invalidColumn c t s)
    else
      match P.parseInt s with
      | some v => .ok v
      | none => .error (.invalidColumn c t s)

/-- One result row: column name to coerced value, in column order. -/
abbrev Row : Type := List (String × Value)

/-- Coerce the columns of a single raw row, aborting on the first error
(the Go loop returns the error immediately). -/
def coerceCols (P : Parsers) : List String → List String → List ColVal → Except GoErr Row
  | [], _, _ => .ok []
  | _ :: _, [], _ => .ok []
  | _ :: _, _ :: _, [] => .ok []
  | c :: cs, t :: ts, v :: vs =>
    match coerceColumn P c t v with
    | .error e => .error e
    | .ok w =>
      match coerceCols P cs ts vs with
      | .error e => .error e
      | .ok rest => .ok ((c, w) :: rest)

/-- The driver's raw answer to a query: column names, declared type names,
and the scanned rows. -/
structure QueryRaw where
  columns : List String
  types : List String
  rows : List (List ColVal)
deriving DecidableEq, Repr

/-- Coerce every raw row of a query result. -/
def coerceRows (P : Parsers) (raw : QueryRaw) : List (List ColVal) → Except GoErr (List Row)
  | [] => .ok []
  | r :: rs =>
    match coerceCols P raw.columns raw.types r with
    | .error e => .error e
    | .ok row =>
      match coerceRows P raw rs with
      | .error e => .error e
      | .ok rest => .ok (row :: rest)

/-- The driver's behaviour on one statement: what `ExecContext` would return
(last-insert id and rows affected) and what `QueryContext` would return.
`dbRunner.Run` picks one of the two according to the statement text. -/
structure StmtResp where
  execResp : Except GoErr (Int × Int)
  queryResp : Except GoErr QueryRaw

/-- The transaction oracle for one `dbRunner.Run` call: outcome of `BeginTx`,
`Rollback` and `Commit`, and the driver behaviour for the i-th statement. -/
structure TxEnv where
  beginErr : Option GoErr
  rollbackErr : Option GoErr
  commitErr : Option GoErr
  stmtResp : Nat → StmtResp

/-- The `out` value a statement leaves behind: the empty initial map, an exec
result `{last_insert_id, rows_affected}`, or a query result `{rows: ...}`. -/
inductive OutVal where
  | emptyOut
  | execOut (lastInsertId rowsAffected : Int)
  | rowsOut (rows : List Row)
deriving DecidableEq, Repr

/-- Statement-kind detection from the source: a statement is a query exactly
when its uppercased text starts with SELECT. -/
def isSelectStmt (s : String) : Bool := startsWithL (upperStr s).data "SELECT".data

/-- Execute one statement against the driver oracle: the exec path captures
`{last_insert_id, rows_affected}`, the query path coerces all rows into
`{rows: ...}`; any error aborts the statement. -/
def execStmt (P : Parsers) (resp : StmtResp) (stmt : String) : Except GoErr OutVal :=
  if isSelectStmt stmt = false then
    match resp.execResp with
    | .error e => .error e
    | .ok p => .ok (.execOut p.1 p.2)
  else
    match resp.queryResp with
    | .error e => .error e
    | .ok raw =>
      match coerceRows P raw raw.rows with
      | .error e => .error e
      | .ok rows => .ok (.rowsOut rows)

/-- The statement loop of `dbRunner.Run`: each statement overwrites `out`;
the first error aborts the loop. -/
def runLoop (P : Parsers) (R : Nat → StmtResp) : List String → Nat → OutVal → Except GoErr OutVal
  | [], _, out => .ok out
  | s :: rest, i, _ =>
    match execStmt P (R i) s with
    | .error e => .error e
    | .ok o => runLoop P R rest (i + 1) o

/-- Observable outcome of one `dbRunner.Run` call: the returned error (if any),
the store contents afterwards, and whether rollback/commit happened. -/
structure DBRunOut where
  err : Option GoErr
  store : List OutVal
  rolledBack : Bool
  committed : Bool
deriving DecidableEq, Repr

/-- `dbRunner.Run` (lines 84-208 of the source): split the script, run every
statement inside one transaction, roll back on the first statement error
(a rollback failure replaces the original error), commit on success and only
then record the final `out` map into the store. -/
def dbRunnerRun (P : Parsers) (env : TxEnv) (store : List OutVal) (q : String) : DBRunOut :=
  match env.beginErr with
  | some e => ⟨some e, store, false, false⟩
  | none =>
    match runLoop P env.stmtResp (separateStmt q) 0 .emptyOut with
    | .error e =>
      match env.rollbackErr with
      | some re => ⟨some re, store, false, false⟩
      | none => ⟨some e, store, true, false⟩
    | .ok out =>
      match env.commitErr with
      | some ce => ⟨some ce, store, false, false⟩
      | none => ⟨none, store ++ [out], false, true⟩

/-- Whether an `Except` result is a success. -/
def exOk : Except GoErr OutVal → Bool
  | .ok _ => true
  | .error _ => false

/-- The payload of a successful `Except` result (`emptyOut` on error). -/
def outValOf : Except GoErr OutVal → OutVal
  | .ok o => o
  | .error _ => .emptyOut

/-! ## Expansion engine (`operator.expand`, `replacefunc`, `numberRe`)

The YAML codec (`yaml.Marshal`/`yaml.Unmarshal`), the fragment walker
`expand.ReplaceYAML`, the regexp engine behind `expandRe` and the expression
evaluator `expr.Eval` are external collaborators; they are supplied as an
abstract environment whose interface laws become hypotheses. -/

/-- A YAML/JSON-compatible payload value (the dynamic value tree the operator
expands). -/
inductive YValue where
  | ynull
  | ybool (b : Bool)
  | yint (n : Int)
  | ystr (s : String)
  | yseq (l : List YValue)
  | ymap (m : List (String × YValue))
deriving BEq, Repr

/-- Result of evaluating one placeholder expression, as discriminated by the
type switch in `replacefunc`: a string, an int64, an int, or anything else
(which the switch rejects). -/
inductive EvalVal where
  | s (v : String)
  | i64 (v : Int)
  | iv (v : Int)
  | otherV
deriving DecidableEq, Repr

/-- Strip one optional leading sign character. -/
def stripSign : List Char → List Char
  | [] => []
  | c :: rest => if c = '+' || c = '-' then rest else c :: rest

/-- The anchored numeric pattern `numberRe` (optional sign, one or more digits,
optional fractional part), decided directly over the characters. -/
def numberReMatch (s : String) : Bool :=
  let cs := stripSign s.data
  let ds := cs.takeWhile Char.isDigit
  let rest := cs.dropWhile Char.isDigit
  if ds.isEmpty then false
  else
    match rest with
    | [] => true
    | c :: r2 => c = '.' && !r2.isEmpty && r2.all Char.isDigit

/-- A single-character string holding a single quote. -/
def sqS : String := String.mk [squoteChar]

/-- The rendering switch of `replacefunc`: numeric-looking string results are
re-quoted, other strings are inserted literally, integers become decimal
literals, anything else is an "invalid format" error (the payload the Go code
attaches is irrelevant here). -/
def renderEvalVal : EvalVal → String × Option GoErr
  | .s v => if numberReMatch v then (sqS ++ v ++ sqS, none) else (v, none)
  | .i64 n => (toString n, none)
  | .iv n => (toString n, none)
  | .otherV => ("", some .invalidFormat)

/-- The external environment of `operator.expand`: the YAML codec, the fragment
decomposition used by `expand.ReplaceYAML`, the regexp match list
(full match and captured expression), and the expression evaluator closed
over the store snapshot. -/
structure ExpandEnv where
  marshal : YValue → String
  unmarshal : String → Except GoErr YValue
  fragments : String → List String
  findMatches : String → List (String × String)
  evalExpr : String → Except GoErr EvalVal

/-- Processing of one regexp match inside `replacefunc`: evaluate the captured
expression and render the replacement text.  An evaluation failure leaves the
replacement empty and (matching the Go control flow, where the nil result
falls into the default case of the type switch) reports an invalid-format
error. -/
def procMatch (env : ExpandEnv) (m : String × String) : String × Option GoErr :=
  match env.evalExpr m.2 with
  | .error _ => ("", some .invalidFormat)
  | .ok v => renderEvalVal v

/-- The two-character opening placeholder delimiter. -/
def placeholderOpen : List Char := [obraceChar, obraceChar]

/-- First replacement pair whose (non-empty) pattern is a prefix of `cs`
(Go `strings.Replacer` match order). -/
def firstPat (pairs : List (String × String)) (cs : List Char) : Option (String × String) :=
  pairs.find? (fun p => !p.1.data.isEmpty && startsWithL cs p.1.data)

/-- Go `strings.Replacer.Replace`: scan left to right, replace the first
matching pattern without overlap. -/
def applyPairs (pairs : List (String × String)) : List Char → List Char
  | [] => []
  | c :: cs =>
    match firstPat pairs (c :: cs) with
    | some p => p.2.data ++ applyPairs pairs (cs.drop (p.1.data.length - 1))
    | none => c :: applyPairs pairs cs
termination_by l => l.length
decreasing_by
  · simp
    omega
  · simp

/-- `replacefunc` from `operator.expand`: fragments without a placeholder
delimiter are returned untouched; otherwise every regexp match is evaluated,
the collected old/new pairs are applied, and the last evaluation error (if
any) is reported. -/
def replacefunc (env : ExpandEnv) (input : String) : String × Option GoErr :=
  if hasSubL input.data placeholderOpen = false then (input, none)
  else
    let step := (env.findMatches input).foldl
      (fun (acc : List (String × String) × Option GoErr) m =>
        let r := procMatch env m
        (acc.1 ++ [(m.1, r.1)], match r.2 with | some e => some e | none => acc.2))
      ([], none)
    (String.mk (applyPairs step.1 input.data), step.2)

/-- Concatenation of a fragment list back into one document. -/
def joinAll (l : List String) : String := l.foldl (fun a b => a ++ b) ""

/-- `operator.expand` (lines 513-561 of the source): marshal the payload, run
`replacefunc` over every fragment of the serialized document, fail on the last
recorded evaluation error, and unmarshal the reassembled document. -/
def expandO (env : ExpandEnv) (v : YValue) : Except GoErr YValue :=
  let b := env.marshal v
  let pieces := (env.fragments b).map (replacefunc env)
  let e := joinAll (pieces.map Prod.fst)
  let rep := pieces.foldl (fun acc p => match p.2 with | some er => some er | none => acc) none
  match rep with
  | some er => .error er
  | none => env.unmarshal e

/-- A deserialized YAML scalar: either a string or a number token. -/
inductive ScalarV where
  | strS (s : String)
  | numS (lexeme : String)
deriving DecidableEq, Repr

/-- Modelled from the spec: the scalar-typing rule of the external YAML reader
at its interface (the `goccy/go-yaml` implementation is not part of this
repository) — a single-quoted scalar deserializes to the quoted string, an
unquoted scalar matching the numeric pattern deserializes to a number, and
anything else stays a plain string. -/
def yamlScalarValue (s : String) : ScalarV :=
  let cs := s.data
  if 2 ≤ cs.length ∧ cs.head? = some squoteChar ∧ cs.getLast? = some squoteChar then
    .strS (String.mk ((cs.drop 1).dropLast))
  else if numberReMatch s then .numS s
  else .strS s

/-! ## Step configuration (`validateStepKeys`, `AppendStep`)

A step configuration is a string-keyed YAML mapping; it is modelled as an
association list with unique keys.  The reserved key names are fixed by the
spec (section 6); the Go constants live in a file outside the extracted
sources. -/

/-- A step-configuration value: a string, a string-keyed mapping, or anything
else (which the type assertions in `AppendStep` reject). -/
inductive SVal where
  | str (s : String)
  | vmap (m : List (String × SVal))
  | otherS
deriving BEq, Repr

/-- A step configuration mapping. -/
abbrev AList : Type := List (String × SVal)

/-- Modelled from the spec: the reserved step key for the assert (test) side-runner. -/
def testRunnerKey : String := "test"

/-- Modelled from the spec: the reserved step key for the dump side-runner. -/
def dumpRunnerKey : String := "dump"

/-- Modelled from the spec: the reserved step key for the bind side-runner. -/
def bindRunnerKey : String := "bind"

/-- Modelled from the spec: the reserved step key for the include runner. -/
def includeRunnerKey : String := "include"

/-- Modelled from the spec: the reserved step key for the exec runner. -/
def execRunnerKey : String := "exec"

/-- Go map lookup `s[k]` on the association list. -/
def lookupA (k : String) (s : AList) : Option SVal :=
  (s.find? (fun p => p.1 == k)).map Prod.snd

/-- Go `delete(s, k)` on the association list. -/
def deleteA (k : String) (s : AList) : AList :=
  s.filter (fun p => !(p.1 == k))

/-- The primary action resolved for a step. -/
inductive PrimAct where
  | includeP (path : String)
  | execP (cmd : List (String × SVal))
  | httpP (req : List (String × SVal))
  | dbP (q : List (String × SVal))
deriving BEq, Repr

/-- The step record `AppendStep` builds: configured side-runner conditions,
the popped primary runner key, and the resolved primary action. -/
structure StepRec where
  key : String
  testCond : Option String
  dumpCond : Option String
  bindCond : Option (List (String × String))
  runnerKey : String
  prim : Option PrimAct
deriving BEq, Repr

/-- The runner registry of the operator: names of registered HTTP and DB
runners. -/
structure OpReg where
  httpNames : List String
  dbNames : List String

/-- A fresh step record. -/
def initStep (key : String) : StepRec :=
  ⟨key, none, none, none, "", none⟩

/-- Coerce a mapping's values to strings, as the bind block's inner type
assertions do; `none` models the "invalid bind condition" error. -/
def strEntries : List (String × SVal) → Option (List (String × String))
  | [] => some []
  | (k, .str v) :: rest =>
    match strEntries rest with
    | some r => some ((k, v) :: r)
    | none => none
  | (_, _) :: _ => none

/-- The test-runner block of `AppendStep`: consume the `test` key into the
step's test condition; a non-string value is an error. -/
def testPhase (st : StepRec) (s : AList) : Except GoErr (StepRec × AList) :=
  match lookupA testRunnerKey s with
  | none => .ok (st, s)
  | some (.str c) => .ok ({ st with testCond := some c }, deleteA testRunnerKey s)
  | some _ => .error (.invalidCond "test")

/-- The dump-runner block of `AppendStep`: consume the `dump` key into the
step's dump condition. -/
def dumpPhase (st : StepRec) (s : AList) : Except GoErr (StepRec × AList) :=
  match lookupA dumpRunnerKey s with
  | none => .ok (st, s)
  | some (.str c) => .ok ({ st with dumpCond := some c }, deleteA dumpRunnerKey s)
  | some _ => .error (.invalidCond "dump")

/-- The bind-runner block of `AppendStep` exactly as written in the source:
it looks the step configuration up under the DUMP key (`s[dumpRunnerKey]`,
operator.go line 301) rather than the bind key, and deletes the bind key
afterwards. -/
def bindPhase (st : StepRec) (s : AList) : Except GoErr (StepRec × AList) :=
  match lookupA dumpRunnerKey s with
  | none => .ok (st, s)
  | some (.vmap m) =>
    match strEntries m with
    | some cond => .ok ({ st with bindCond := some cond }, deleteA bindRunnerKey s)
    | none => .error (.invalidCond "bind")
  | some _ => .error (.invalidCond "bind")

/-- The `pop` call and the primary-runner dispatch of `AppendStep`.  Go's map
iteration picks an arbitrary entry; the model takes the first entry of the
association list, which is exact whenever at most one key remains. -/
def popPhase (o : OpReg) (st : StepRec) (s : AList) : Except GoErr StepRec :=
  match s.head? with
  | none => .ok st
  | some (k, v) =>
    let st := { st with runnerKey := k }
    if k = includeRunnerKey then
      match v with
      | .str p => .ok { st with prim := some (.includeP p) }
      | _ => .error (.other "invalid include path")
    else if k = execRunnerKey then
      match v with
      | .vmap m => .ok { st with prim := some (.execP m) }
      | _ => .error (.other "invalid exec command")
    else if o.httpNames.contains k then
      match v with
      | .vmap m => .ok { st with prim := some (.httpP m) }
      | _ => .error (.other "invalid http request")
    else if o.dbNames.contains k then
      match v with
      | .vmap m => .ok { st with prim := some (.dbP m) }
      | _ => .error (.other "invalid db query")
    else .error (.noClient k)

/-- `operator.AppendStep` (lines 267-375 of the source): the three side-runner
blocks in order, then primary-runner resolution of the remaining key. -/
def appendStepModel (o : OpReg) (key : String) (s0 : AList) : Except GoErr StepRec :=
  match testPhase (initStep key) s0 with
  | .error e => .error e
  | .ok p1 =>
    match dumpPhase p1.1 p1.2 with
    | .error e => .error e
    | .ok p2 =>
      match bindPhase p2.1 p2.2 with
      | .error e => .error e
      | .ok p3 => popPhase o p3.1 p3.2

/-- `validateStepKeys` (lines 250-265 of the source): a step must carry at
least one key and at most one key that is not a side-runner key. -/
def validateStepKeysM (s : AList) : Except GoErr Unit :=
  if s.length = 0 then .error (.other "step must specify at least one runner")
  else if 1 < (s.filter (fun p =>
      !(p.1 == testRunnerKey) && !(p.1 == dumpRunnerKey) && !(p.1 == bindRunnerKey))).length then
    .error (.other "runners that cannot be running at the same time are specified")
  else .ok ()

/-! ## Batch execution (`operators.RunN`) -/

/-- One scenario as `RunN` sees it: the outcome its `Run` would produce and its
`failFast` flag. -/
structure OpM where
  runErr : Option GoErr
  failFast : Bool

/-- `operators.RunN` (lines 605-615 of the source): run the scenarios in
order; an error from a `failFast` scenario aborts the batch with that error,
any other outcome continues; the batch itself returns nil.  The second
component counts how many scenarios were run. -/
def runN : List OpM → Option GoErr × Nat
  | [] => (none, 0)
  | o :: rest =>
    match o.runErr with
    | some e =>
      if o.failFast then (some e, 1)
      else ((runN rest).1, (runN rest).2 + 1)
    | none => ((runN rest).1, (runN rest).2 + 1)

/-! ## Store recording and the side-runner phase (`operator.record`,
`operator.run` lines 472-501)

The internals of the test, dump and bind runners live outside the extracted
sources; whether such a runner records a store entry of its own is therefore
an oracle (the spec says only that each side-runner "may itself record a
store entry").  The guard-and-placeholder logic is taken from the source. -/

/-- The store as `operator.record` sees it: the positional per-step list and
the named per-step map (an insertion-ordered association list).  Entry
payloads are irrelevant to the claims; `none` is the nil placeholder. -/
structure Store9 where
  steps : List (Option Nat)
  stepMaps : List (String × Option Nat)
deriving DecidableEq, Repr

/-- A Go runtime panic raised by the model. -/
inductive Panic9 where
  | indexOutOfRange
deriving DecidableEq, Repr

/-- Go map assignment `m[k] = v` on an insertion-ordered association list. -/
def upsert9 (m : List (String × Option Nat)) (k : String) (v : Option Nat) :
    List (String × Option Nat) :=
  if m.any (fun p => p.1 == k) then
    m.map (fun p => if p.1 == k then (k, v) else p)
  else m ++ [(k, v)]

/-- `operator.record` (lines 95-101 of the source): in named mode (and with at
least one step) write to `stepMaps` under the key of the step at index
`len(stepMaps)` — indexing past the step list is a runtime panic — otherwise
append to the positional list.  `keys` is the list of step keys, so
`keys.length` is `len(o.steps)`. -/
def record9 (useMaps : Bool) (keys : List String) (st : Store9) (v : Option Nat) :
    Except Panic9 Store9 :=
  if useMaps ∧ 0 < keys.length then
    match keys.get? st.stepMaps.length with
    | none => .error .indexOutOfRange
    | some k => .ok { st with stepMaps := upsert9 st.stepMaps k v }
  else .ok { st with steps := st.steps ++ [v] }

/-- One side-runner block of `operator.run`: run the side-runner (its own
recording behaviour is the oracle `rec?`: `some v` means the runner records
`v`, `none` means it records nothing), then insert a nil placeholder if the
positional list is still short of `i + 1` entries. -/
def sideBlock9 (useMaps : Bool) (keys : List String) (i : Nat) (rec? : Option (Option Nat))
    (st : Store9) : Except Panic9 Store9 :=
  match (match rec? with
    | some v => record9 useMaps keys st v
    | none => .ok st) with
  | .error e => .error e
  | .ok st1 =>
    if st1.steps.length < i + 1 then record9 useMaps keys st1 none else .ok st1

/-- Which side-runners a step has configured (non-empty trigger). -/
structure SideFlags where
  hasTest : Bool
  hasDump : Bool
  hasBind : Bool

/-- The recording oracle for the three side-runners of one step. -/
structure SideOracle where
  testRec : Option (Option Nat)
  dumpRec : Option (Option Nat)
  bindRec : Option (Option Nat)

/-- The side-runner phase of step `i` in `operator.run` (lines 472-501):
test, dump and bind blocks in this fixed order, each followed by the
placeholder guard. -/
def sidePhase9 (useMaps : Bool) (keys : List String) (i : Nat) (f : SideFlags)
    (orc : SideOracle) (st : Store9) : Except Panic9 Store9 :=
  match (if f.hasTest then sideBlock9 useMaps keys i orc.testRec st else .ok st) with
  | .error e => .error e
  | .ok st1 =>
    match (if f.hasDump then sideBlock9 useMaps keys i orc.dumpRec st1 else .ok st1) with
    | .error e => .error e
    | .ok st2 =>
      if f.hasBind then sideBlock9 useMaps keys i orc.bindRec st2 else .ok st2

/-! ## Store-mode selection and step display names (`New`, `operator.stepName`) -/

/-- Modelled from the spec: the book loader declares each step with an optional
name; `stepKeys` collects the names of the named steps (the loader itself is
outside the extracted sources). -/
def stepKeysOf (d : List (Option String)) : List String := d.filterMap id

/-- The mode selection in `New` (lines 110-114 of the source): named-step mode
is chosen exactly when the number of collected step keys equals the number of
steps; no error is raised otherwise. -/
def useMapsOf (d : List (Option String)) : Bool :=
  (stepKeysOf d).length == d.length

/-- `operator.stepName` (lines 506-511 of the source): named mode renders
`'<desc>'.steps.<key>`, positional mode renders `'<desc>'.steps[<i>]`. -/
def stepNameM (desc : String) (useMaps : Bool) (keys : List String) (i : Nat) : String :=
  if useMaps then sqS ++ desc ++ sqS ++ ".steps." ++ keys.getD i ""
  else sqS ++ desc ++ sqS ++ ".steps[" ++ toString i ++ "]"

/-! ## Concrete fixtures used by witness theorems -/

/-- Toy parser oracle: floats come back as opaque numeric payloads, dates and
JSON as opaque tagged payloads, and integer parsing always fails. -/
def P0 : Parsers :=
  ⟨fun s => some (.vnum s), fun s => some (.vtagged s), fun s => some (.vtagged s), fun _ => none⟩

/-- The two-statement script from the repository's own test table. -/
def qSel : String := "SELECT 1;SELECT 2;"

/-- Driver behaviour answering a one-column one-row query. -/
def respOf (col : String) (n : Int) : StmtResp :=
  ⟨.ok (0, 0), .ok ⟨[col], ["INTEGER"], [[.typed (.vint n)]]⟩⟩

/-- Transaction oracle for `qSel`: statement 0 answers `{"1": 1}`, every later
statement answers `{"2": 2}`; begin, commit and rollback succeed. -/
def env0 : TxEnv := ⟨none, none, none, fun j => if j = 0 then respOf "1" 1 else respOf "2" 2⟩

/-- Transaction oracle in which every statement fails. -/
def envFail : TxEnv :=
  ⟨none, none, none, fun _ => ⟨.error (.stmtE "boom"), .error (.stmtE "boom")⟩⟩

/-- The quoted-semicolon script from the spec's testable properties. -/
def qIns : String := "INSERT INTO users (name) VALUES (" ++ sqS ++ "a;b" ++ sqS ++ ");"

/-- Expansion environment whose document round-trips the value
`.ystr "hello"` and contains no placeholder. -/
def envC5 : ExpandEnv :=
  ⟨fun _ => "hello", fun _ => .ok (.ystr "hello"), fun s => [s], fun _ => [],
   fun _ => .error .invalidFormat⟩

/-- Expansion environment whose expression evaluator returns the numeric-looking
string result used by the re-quoting witness. -/
def envC6 : ExpandEnv :=
  ⟨fun _ => "", fun _ => .error .invalidFormat, fun s => [s], fun _ => [],
   fun _ => .ok (.s "123")⟩

/-- An operator with no registered runners. -/
def o0 : OpReg := ⟨[], []⟩

/-- A step configuration carrying only a bind mapping. -/
def cfgBind : AList := [(bindRunnerKey, SVal.vmap [("x", SVal.str "vars.x")])]

/-- A step configuration carrying only a test condition. -/
def cfgTest : AList := [(testRunnerKey, SVal.str "true")]

theorem dq_ne_sq : ¬ dquoteChar = squoteChar := by decide

theorem semi_ne_sq : ¬ (';' : Char) = squoteChar := by decide

theorem semi_ne_dq : ¬ (';' : Char) = dquoteChar := by decide

theorem sepCore_fst_length (cs : List Char) :
    ∀ acc s ins ind, ((sepCore acc s ins ind cs).1).length = acc.length + cntUS ins ind cs := by
  induction cs with
  | nil => intro acc s ins ind; simp [sepCore, cntUS]
  | cons c cs ih =>
    intro acc s ins ind
    by_cases h1 : c = squoteChar
    · simp [sepCore, cntUS, h1, ih]
    · by_cases h2 : c = dquoteChar
      · simp [sepCore, cntUS, h1, h2, ih, dq_ne_sq]
      · by_cases h3 : c = ';'
        · by_cases h4 : (!ins && !ind) = true
          · simp [sepCore, cntUS, h1, h2, h3, h4, ih, semi_ne_sq, semi_ne_dq]
            omega
          · simp [sepCore, cntUS, h1, h2, h3, h4, ih, semi_ne_sq, semi_ne_dq]
        · simp [sepCore, cntUS, h1, h2, h3, ih]

/-- C4: For every SQL script, `separateStmt` splits only on `;` characters that
lie outside single- and double-quoted literals, tracking quote state character
by character: the number of produced statements is bounded by the number of
unquoted semicolons (each unquoted `;` cuts exactly one statement, plus at
most one trailing fragment), and the example script whose only unquoted
semicolon is the final one yields exactly one statement — the `;` inside the
quoted literal produces no split. -/
theorem separateStmt_quote_aware :
    (∀ stmt : String, stmt.data.contains ';' = true →
      cntUS false false stmt.data ≤ (separateStmt stmt).length ∧
      (separateStmt stmt).length ≤ cntUS false false stmt.data + 1) ∧
    separateStmt qIns = [qIns] ∧ cntUS false false qIns.data = 1 := by
  refine ⟨?_, by decide, by decide⟩
  intro stmt h
  have hmem : ';' ∈ stmt.data := by simpa using h
  have hlen := sepCore_fst_length stmt.data [] [] false false
  simp only [List.length_nil, Nat.zero_add] at hlen
  simp only [separateStmt, hmem]
  by_cases he : trimRightSet tailCutset (sepCore [] [] false false stmt.data).2 = []
  · simp [he, hlen, hmem]
  · simp [he, hlen, hmem]

/-- Witness for C4 at the two-statement script from the repository's tests. -/
theorem separateStmt_quote_aware_witness :
    cntUS false false qSel.data ≤ (separateStmt qSel).length ∧
    (separateStmt qSel).length ≤ cntUS false false qSel.data + 1 :=
  separateStmt_quote_aware.1 qSel (by decide)

theorem exOk_exists (r : Except GoErr OutVal) (h : exOk r = true) : ∃ o, r = .ok o := by
  cases r with
  | ok o => exact ⟨o, rfl⟩
  | error e => simp [exOk] at h

theorem runLoop_all_ok (P : Parsers) (R : Nat → StmtResp) :
    ∀ (l : List String) (i : Nat) (out0 : OutVal), l ≠ [] →
    (∀ j, j < l.length → exOk (execStmt P (R (i + j)) (l.getD j "")) = true) →
    runLoop P R l i out0 = execStmt P (R (i + l.length - 1)) ((l.getLast?).getD "") := by
  intro l
  induction l with
  | nil => intro i out0 hne _; exact absurd rfl hne
  | cons s t ih =>
    intro i out0 _ hok
    have h0 := hok 0 (by simp)
    simp only [List.getD_cons_zero, Nat.add_zero] at h0
    obtain ⟨o, ho⟩ := exOk_exists _ h0
    cases t with
    | nil =>
      simp [runLoop, ho, List.getLast?]
    | cons b u =>
      have hstep : runLoop P R (s :: b :: u) i out0 = runLoop P R (b :: u) (i + 1) o := by
        simp [runLoop, ho]
      rw [hstep, ih (i + 1) o (by simp)]
      · have harith : i + 1 + (b :: u).length - 1 = i + (s :: b :: u).length - 1 := by
          simp only [List.length_cons]; omega
        rw [harith, List.getLast?_cons_cons]
      · intro j hj
        simp only [List.length_cons] at hj
        have := hok (j + 1) (by simp only [List.length_cons]; omega)
        simpa [List.getD_cons_succ, Nat.add_assoc, Nat.add_comm 1 j] using this

theorem runLoop_first_err (P : Parsers) (R : Nat → StmtResp) :
    ∀ (l : List String) (k i : Nat) (out0 : OutVal) (e : GoErr),
    (∀ j, j < k → exOk (execStmt P (R (i + j)) (l.getD j "")) = true) →
    execStmt P (R (i + k)) (l.getD k "") = .error e →
    k < l.length →
    runLoop P R l i out0 = .error e := by
  intro l
  induction l with
  | nil => intro k i out0 e _ _ hk; simp at hk
  | cons s t ih =>
    intro k i out0 e hpre herr hk
    cases k with
    | zero =>
      simp only [List.getD_cons_zero, Nat.add_zero] at herr
      simp [runLoop, herr]
    | succ k =>
      have h0 := hpre 0 (Nat.succ_pos k)
      simp only [List.getD_cons_zero, Nat.add_zero] at h0
      obtain ⟨o, ho⟩ := exOk_exists _ h0
      have hstep : runLoop P R (s :: t) i out0 = runLoop P R t (i + 1) o := by
        simp [runLoop, ho]
      rw [hstep]
      apply ih k (i + 1) o e
      · intro j hj
        have := hpre (j + 1) (by omega)
        simpa [List.getD_cons_succ, Nat.add_assoc, Nat.add_comm 1 j] using this
      · have harith : i + 1 + k = i + (k + 1) := by omega
        rw [harith]
        simpa [List.getD_cons_succ] using herr
      · simpa using hk

theorem runLoop_ok_exists (P : Parsers) (R : Nat → StmtResp) :
    ∀ (l : List String) (i : Nat) (out0 : OutVal),
    (∀ j, j < l.length → exOk (execStmt P (R (i + j)) (l.getD j "")) = true) →
    ∃ o, runLoop P R l i out0 = .ok o := by
  intro l
  induction l with
  | nil => intro i out0 _; exact ⟨out0, rfl⟩
  | cons s t ih =>
    intro i out0 hok
    have h0 := hok 0 (by simp)
    simp only [List.getD_cons_zero, Nat.add_zero] at h0
    obtain ⟨o, ho⟩ := exOk_exists _ h0
    have hstep : runLoop P R (s :: t) i out0 = runLoop P R t (i + 1) o := by
      simp [runLoop, ho]
    rw [hstep]
    apply ih (i + 1) o
    intro j hj
    have := hok (j + 1) (by simp only [List.length_cons]; omega)
    simpa [List.getD_cons_succ, Nat.add_assoc, Nat.add_comm 1 j] using this

theorem execStmt_select_shape (P : Parsers) (r : StmtResp) (s : String) (o : OutVal)
    (hsel : isSelectStmt s = true) (h : execStmt P r s = .ok o) :
    ∃ rows, o = .rowsOut rows := by
  unfold execStmt at h
  rw [hsel] at h
  simp only [Bool.true_eq_false, if_false] at h
  cases hq : r.queryResp with
  | error e => rw [hq] at h; simp at h
  | ok raw =>
    rw [hq] at h
    simp only [] at h
    cases hc : coerceRows P raw raw.rows with
    | error e => rw [hc] at h; simp at h
    | ok rows => rw [hc] at h; simp at h; exact ⟨rows, h.symm⟩

theorem execStmt_exec_shape (P : Parsers) (r : StmtResp) (s : String) (o : OutVal)
    (hsel : isSelectStmt s = false) (h : execStmt P r s = .ok o) :
    ∃ a b, o = .execOut a b := by
  unfold execStmt at h
  rw [hsel] at h
  simp only [if_pos rfl] at h
  cases hq : r.execResp with
  | error e => rw [hq] at h; simp at h
  | ok p => rw [hq] at h; simp at h; exact ⟨p.1, p.2, h.symm⟩

/-- C1: For every DB step whose script contains multiple statements and whose
statements all succeed (with begin and commit succeeding), `dbRunner.Run`
records exactly one result in the store — the store grows by exactly one
entry — and that entry is the `out` value of the last statement executed:
a `{rows: ...}` value when the last statement is a SELECT, otherwise a
`{last_insert_id, rows_affected}` value; the results of earlier statements
in the same script are not retained. -/
theorem dbRun_records_last (P : Parsers) (env : TxEnv) (store : List OutVal) (q : String)
    (hb : env.beginErr = none) (hc : env.commitErr = none)
    (hn : 1 < (separateStmt q).length)
    (hok : ∀ j, j < (separateStmt q).length →
      exOk (execStmt P (env.stmtResp j) ((separateStmt q).getD j "")) = true) :
    (dbRunnerRun P env store q).err = none ∧
    (dbRunnerRun P env store q).store =
      store ++ [outValOf (execStmt P (env.stmtResp ((separateStmt q).length - 1))
        (((separateStmt q).getLast?).getD ""))] ∧
    (isSelectStmt (((separateStmt q).getLast?).getD "") = true →
      ∃ rows, outValOf (execStmt P (env.stmtResp ((separateStmt q).length - 1))
        (((separateStmt q).getLast?).getD "")) = .rowsOut rows) ∧
    (isSelectStmt (((separateStmt q).getLast?).getD "") = false →
      ∃ a b, outValOf (execStmt P (env.stmtResp ((separateStmt q).length - 1))
        (((separateStmt q).getLast?).getD "")) = .execOut a b) := by
  have hne : separateStmt q ≠ [] := by
    intro hnil; rw [hnil] at hn; simp at hn
  have hRL := runLoop_all_ok P env.stmtResp (separateStmt q) 0 .emptyOut hne
    (by intro j hj; simpa using hok j hj)
  simp only [Nat.zero_add] at hRL
  have hlast := hok ((separateStmt q).length - 1) (by omega)
  have hgetD : (separateStmt q).getD ((separateStmt q).length - 1) "" =
      ((separateStmt q).getLast?).getD "" := by
    rw [List.getLast?_eq_getElem?, List.getD_eq_getElem?_getD]
  rw [hgetD] at hlast
  obtain ⟨o, ho⟩ := exOk_exists _ hlast
  rw [ho] at hRL
  have hrun : dbRunnerRun P env store q = ⟨none, store ++ [o], false, true⟩ := by
    unfold dbRunnerRun
    rw [hb, hRL, hc]
  have hov : outValOf (execStmt P (env.stmtResp ((separateStmt q).length - 1))
      (((separateStmt q).getLast?).getD "")) = o := by rw [ho]; rfl
  refine ⟨by rw [hrun], by rw [hrun, hov], ?_, ?_⟩
  · intro hsel
    obtain ⟨rows, hr⟩ := execStmt_select_shape P _ _ o hsel ho
    exact ⟨rows, by rw [hov, hr]⟩
  · intro hsel
    obtain ⟨a, b, hr⟩ := execStmt_exec_shape P _ _ o hsel ho
    exact ⟨a, b, by rw [hov, hr]⟩

/-- Witness for C1: running the repository's own two-statement example script
against a concrete driver oracle records exactly the second statement's rows. -/
theorem dbRun_records_last_witness :
    (dbRunnerRun P0 env0 [] qSel).err = none ∧
    (dbRunnerRun P0 env0 [] qSel).store = [OutVal.rowsOut [[("2", Value.vint 2)]]] := by
  have h := dbRun_records_last P0 env0 [] qSel rfl rfl (by decide) (by decide)
  exact ⟨h.1, h.2.1.trans (by decide)⟩

/-- C2: If any statement in a DB script fails, `dbRunner.Run` rolls the whole
transaction back and returns that statement's error without touching the
store; if the rollback itself fails its error replaces the statement error;
if all statements succeed the transaction is committed, and a commit failure
is returned as-is (again with the store untouched). -/
theorem dbRun_atomic :
    (∀ (P : Parsers) (env : TxEnv) (store : List OutVal) (q : String) (k : Nat) (e : GoErr),
      env.beginErr = none →
      (∀ j, j < k → exOk (execStmt P (env.stmtResp j) ((separateStmt q).getD j "")) = true) →
      execStmt P (env.stmtResp k) ((separateStmt q).getD k "") = .error e →
      k < (separateStmt q).length →
      (env.rollbackErr = none → dbRunnerRun P env store q = ⟨some e, store, true, false⟩) ∧
      (∀ re, env.rollbackErr = some re →
        dbRunnerRun P env store q = ⟨some re, store, false, false⟩)) ∧
    (∀ (P : Parsers) (env : TxEnv) (store : List OutVal) (q : String),
      env.beginErr = none →
      (∀ j, j < (separateStmt q).length →
        exOk (execStmt P (env.stmtResp j) ((separateStmt q).getD j "")) = true) →
      (∀ ce, env.commitErr = some ce →
        dbRunnerRun P env store q = ⟨some ce, store, false, false⟩) ∧
      (env.commitErr = none →
        (dbRunnerRun P env store q).err = none ∧
        (dbRunnerRun P env store q).committed = true ∧
        (dbRunnerRun P env store q).rolledBack = false)) := by
  constructor
  · intro P env store q k e hb hpre herr hk
    have hRL := runLoop_first_err P env.stmtResp (separateStmt q) k 0 .emptyOut e
      (by intro j hj; simpa using hpre j hj) (by simpa using herr) hk
    constructor
    · intro hrb
      unfold dbRunnerRun
      rw [hb, hRL, hrb]
    · intro re hrb
      unfold dbRunnerRun
      rw [hb, hRL, hrb]
  · intro P env store q hb hok
    obtain ⟨o, hRL⟩ := runLoop_ok_exists P env.stmtResp (separateStmt q) 0 .emptyOut
      (by intro j hj; simpa using hok j hj)
    constructor
    · intro ce hc
      unfold dbRunnerRun
      rw [hb, hRL, hc]
    · intro hc
      have hrun : dbRunnerRun P env store q = ⟨none, store ++ [o], false, true⟩ := by
        unfold dbRunnerRun
        rw [hb, hRL, hc]
      rw [hrun]
      exact ⟨rfl, rfl, rfl⟩

/-- Witness for C2: a failing first statement makes the run return the
statement error, roll back, and leave the store empty. -/
theorem dbRun_atomic_witness :
    dbRunnerRun P0 envFail [] "A;B" = ⟨some (.stmtE "boom"), [], true, false⟩ := by
  have h := (dbRun_atomic.1 P0 envFail [] "A;B" 0 (.stmtE "boom") rfl
    (by intro j hj; omega) rfl (by decide)).1 rfl
  exact h

theorem coerceColumn_bytes (P : Parsers) (c t0 s : String) :
    coerceColumn P c t0 (.bytes s) =
      (if (hasSubS (upperStr t0) "TEXT" || hasSubS (upperStr t0) "CHAR" ||
          upperStr t0 == "TIME") = true then .ok (.vstr s)
       else if (upperStr t0 == "DECIMAL" || upperStr t0 == "FLOAT" ||
          upperStr t0 == "DOUBLE") = true then
         match P.parseFloat s with
         | some v => .ok v
         | none => .error (.invalidColumn c (upperStr t0) s)
       else if (upperStr t0 == "DATE" || upperStr t0 == "TIMESTAMP" ||
          upperStr t0 == "DATETIME") = true then
         match P.parseDate s with
         | some v => .ok v
         | none => .error (.invalidColumn c (upperStr t0) s)
       else if hasSubS (upperStr t0) "JSONB" = true then
         match P.parseJson s with
         | some v => .ok v
         | none => .error (.invalidColumn c (upperStr t0) s)
       else
         match P.parseInt s with
         | some v => .ok v
         | none => .error (.invalidColumn c (upperStr t0) s)) := rfl

/-- C7: For every byte-encoded column value, the DB runner coerces by the
declared (uppercased) driver type name: names containing TEXT or CHAR, or
exactly TIME, stay strings; the names DECIMAL/FLOAT/DOUBLE go to the float
parser with a parse failure surfacing as an invalid-column error; the names
DATE/TIMESTAMP/DATETIME go to the permissive date parser likewise; names
containing JSONB (and not caught by the string rule) go to the JSON
unmarshaller likewise; every other name goes to integer parsing likewise;
and already-typed (non-byte) values pass through unchanged. -/
theorem coerce_table :
    (∀ (P : Parsers) (c t : String) (v : Value), coerceColumn P c t (.typed v) = .ok v) ∧
    (∀ (P : Parsers) (c t s : String),
      (hasSubS (upperStr t) "TEXT" = true ∨ hasSubS (upperStr t) "CHAR" = true ∨
        upperStr t = "TIME") →
      coerceColumn P c t (.bytes s) = .ok (.vstr s)) ∧
    (∀ (P : Parsers) (c t s : String),
      (upperStr t = "DECIMAL" ∨ upperStr t = "FLOAT" ∨ upperStr t = "DOUBLE") →
      coerceColumn P c t (.bytes s) =
        (match P.parseFloat s with
          | some v => .ok v
          | none => .error (.invalidColumn c (upperStr t) s))) ∧
    (∀ (P : Parsers) (c t s : String),
      (upperStr t = "DATE" ∨ upperStr t = "TIMESTAMP" ∨ upperStr t = "DATETIME") →
      coerceColumn P c t (.bytes s) =
        (match P.parseDate s with
          | some v => .ok v
          | none => .error (.invalidColumn c (upperStr t) s))) ∧
    (∀ (P : Parsers) (c t s : String),
      hasSubS (upperStr t) "JSONB" = true →
      hasSubS (upperStr t) "TEXT" = false →
      hasSubS (upperStr t) "CHAR" = false →
      coerceColumn P c t (.bytes s) =
        (match P.parseJson s with
          | some v => .ok v
          | none => .error (.invalidColumn c (upperStr t) s))) ∧
    (∀ (P : Parsers) (c t s : String),
      hasSubS (upperStr t) "TEXT" = false →
      hasSubS (upperStr t) "CHAR" = false →
      ¬ upperStr t = "TIME" →
      ¬ upperStr t = "DECIMAL" → ¬ upperStr t = "FLOAT" → ¬ upperStr t = "DOUBLE" →
      ¬ upperStr t = "DATE" → ¬ upperStr t = "TIMESTAMP" → ¬ upperStr t = "DATETIME" →
      hasSubS (upperStr t) "JSONB" = false →
      coerceColumn P c t (.bytes s) =
        (match P.parseInt s with
          | some v => .ok v
          | none => .error (.invalidColumn c (upperStr t) s))) := by
  refine ⟨fun P c t v => rfl, ?_, ?_, ?_, ?_, ?_⟩
  · intro P c t s h
    have hcond : (hasSubS (upperStr t) "TEXT" || hasSubS (upperStr t) "CHAR" ||
        upperStr t == "TIME") = true := by
      rcases h with h | h | h <;> simp [h]
    rw [coerceColumn_bytes, if_pos hcond]
  · intro P c t s h
    rcases h with h | h | h <;> rw [coerceColumn_bytes, h] <;>
      rw [if_neg (by decide), if_pos (by decide)]
  · intro P c t s h
    rcases h with h | h | h <;> rw [coerceColumn_bytes, h] <;>
      rw [if_neg (by decide), if_neg (by decide), if_pos (by decide)]
  · intro P c t s hj ht hc
    have h1 : ¬ upperStr t = "TIME" := by
      intro he; rw [he] at hj; revert hj; decide
    have h2 : ¬ upperStr t = "DECIMAL" := by
      intro he; rw [he] at hj; revert hj; decide
    have h3 : ¬ upperStr t = "FLOAT" := by
      intro he; rw [he] at hj; revert hj; decide
    have h4 : ¬ upperStr t = "DOUBLE" := by
      intro he; rw [he] at hj; revert hj; decide
    have h5 : ¬ upperStr t = "DATE" := by
      intro he; rw [he] at hj; revert hj; decide
    have h6 : ¬ upperStr t = "TIMESTAMP" := by
      intro he; rw [he] at hj; revert hj; decide
    have h7 : ¬ upperStr t = "DATETIME" := by
      intro he; rw [he] at hj; revert hj; decide
    rw [coerceColumn_bytes, if_neg (by simp [ht, hc, h1]), if_neg (by simp [h2, h3, h4]),
      if_neg (by simp [h5, h6, h7]), if_pos hj]
  · intro P c t s ht hc h1 h2 h3 h4 h5 h6 h7 hj
    rw [coerceColumn_bytes, if_neg (by simp [ht, hc, h1]), if_neg (by simp [h2, h3, h4]),
      if_neg (by simp [h5, h6, h7]), if_neg (by simp [hj])]

/-- Witness for C7: a DECIMAL byte value is dispatched to the float parser and
an unrecognized BIGINT type falls to integer parsing, whose failure is an
invalid-column error. -/
theorem coerce_table_witness :
    coerceColumn P0 "c" "DECIMAL" (.bytes "3.14") = .ok (.vnum "3.14") ∧
    coerceColumn P0 "c" "BIGINT" (.bytes "x") = .error (.invalidColumn "c" "BIGINT" "x") := by
  constructor
  · have h := coerce_table.2.2.1 P0 "c" "DECIMAL" "3.14" (Or.inl (by decide))
    exact h.trans rfl
  · have h := coerce_table.2.2.2.2.2 P0 "c" "BIGINT" "x" (by decide) (by decide)
      (by decide) (by decide) (by decide) (by decide) (by decide) (by decide) (by decide)
      (by decide)
    exact h.trans rfl

theorem str_append_data (a b : String) : (a ++ b).data = a.data ++ b.data :=
  String.data_append a b

theorem str_append_empty (a : String) : a ++ "" = a := by
  apply String.ext
  simp [str_append_data]

theorem str_empty_append (a : String) : "" ++ a = a := by
  apply String.ext
  simp [str_append_data]

theorem str_append_assoc (a b c : String) : a ++ b ++ c = a ++ (b ++ c) := by
  apply String.ext
  simp [str_append_data]

theorem joinAll_nil : joinAll [] = "" := rfl

theorem joinAll_foldl_init (l : List String) :
    ∀ a : String, l.foldl (fun x y => x ++ y) a = a ++ joinAll l := by
  induction l with
  | nil => intro a; simp [joinAll, str_append_empty]
  | cons b t ih =>
    intro a
    show t.foldl (fun x y => x ++ y) (a ++ b) = a ++ joinAll (b :: t)
    rw [ih (a ++ b)]
    show a ++ b ++ joinAll t = a ++ List.foldl (fun x y => x ++ y) ("" ++ b) t
    rw [ih ("" ++ b), str_empty_append, str_append_assoc]

theorem joinAll_cons (b : String) (t : List String) : joinAll (b :: t) = b ++ joinAll t := by
  show List.foldl (fun x y => x ++ y) ("" ++ b) t = b ++ joinAll t
  rw [joinAll_foldl_init t ("" ++ b), str_empty_append]

theorem mem_joinAll_sub (l : List String) (f : String) (hf : f ∈ l) :
    ∃ pre suf : List Char, (joinAll l).data = pre ++ f.data ++ suf := by
  induction l with
  | nil => simp at hf
  | cons g t ih =>
    rw [joinAll_cons, str_append_data]
    rcases List.mem_cons.mp hf with hfg | hft
    · exact ⟨[], (joinAll t).data, by rw [hfg]; simp⟩
    · obtain ⟨pre, suf, hps⟩ := ih hft
      exact ⟨g.data ++ pre, suf, by rw [hps]; simp⟩

theorem startsWithL_append (n : List Char) :
    ∀ a b : List Char, startsWithL a n = true → startsWithL (a ++ b) n = true := by
  induction n with
  | nil => intro a b _; cases a <;> simp [startsWithL]
  | cons d ds ih =>
    intro a b h
    cases a with
    | nil => simp [startsWithL] at h
    | cons c cs =>
      simp only [startsWithL, Bool.and_eq_true, decide_eq_true_eq] at h
      simp only [List.cons_append, startsWithL, Bool.and_eq_true, decide_eq_true_eq]
      exact ⟨h.1, ih cs b h.2⟩

theorem hasSubL_nil_needle (hay : List Char) : hasSubL hay [] = true := by
  cases hay <;> simp [hasSubL, startsWithL]

theorem hasSubL_append_right (n : List Char) :
    ∀ a b : List Char, hasSubL a n = true → hasSubL (a ++ b) n = true := by
  intro a
  induction a with
  | nil =>
    intro b h
    simp only [hasSubL] at h
    cases n with
    | nil => exact hasSubL_nil_needle b
    | cons d ds => simp at h
  | cons c cs ih =>
    intro b h
    simp only [hasSubL, Bool.or_eq_true] at h
    rcases h with h | h
    · simp only [List.cons_append, hasSubL, Bool.or_eq_true]
      exact Or.inl (startsWithL_append n (c :: cs) b h)
    · simp only [List.cons_append, hasSubL, Bool.or_eq_true]
      exact Or.inr (ih b h)

theorem hasSubL_append_left (n : List Char) :
    ∀ a b : List Char, hasSubL b n = true → hasSubL (a ++ b) n = true := by
  intro a
  induction a with
  | nil => intro b h; exact h
  | cons c cs ih =>
    intro b h
    simp only [List.cons_append, hasSubL, Bool.or_eq_true]
    exact Or.inr (ih b h)

theorem hasSubL_of_sub (s f n pre suf : List Char) (hs : s = pre ++ f ++ suf)
    (h : hasSubL f n = true) : hasSubL s n = true := by
  subst hs
  rw [List.append_assoc]
  exact hasSubL_append_left n pre (f ++ suf) (hasSubL_append_right n f suf h)

theorem foldl_err_none (ps : List (String × Option GoErr)) (hall : ∀ p ∈ ps, p.2 = none) :
    ∀ acc : Option GoErr,
      ps.foldl (fun acc p => match p.2 with | some er => some er | none => acc) acc = acc := by
  induction ps with
  | nil => intro acc; rfl
  | cons p t ih =>
    intro acc
    have hp : p.2 = none := hall p (List.mem_cons_self p t)
    show t.foldl _ (match p.2 with | some er => some er | none => acc) = acc
    rw [hp]
    exact ih (fun q hq => hall q (List.mem_cons_of_mem p hq)) acc

/-- C5: For every payload value whose serialized document contains no
placeholder delimiter anywhere, `operator.expand` returns the value unchanged
(round-trip idempotence of the serialize-substitute-deserialize pipeline),
given the interface laws of the external YAML codec: the fragment
decomposition reassembles to the document and marshalling round-trips. -/
theorem expand_no_placeholder_id (env : ExpandEnv) (v : YValue)
    (hfrag : joinAll (env.fragments (env.marshal v)) = env.marshal v)
    (hrt : env.unmarshal (env.marshal v) = .ok v)
    (hnp : hasSubL (env.marshal v).data placeholderOpen = false) :
    expandO env v = .ok v := by
  have hfragnp : ∀ f ∈ env.fragments (env.marshal v),
      hasSubL f.data placeholderOpen = false := by
    intro f hf
    by_contra hcon
    have hft : hasSubL f.data placeholderOpen = true := by
      cases hfb : hasSubL f.data placeholderOpen
      · exact absurd hfb hcon
      · rfl
    obtain ⟨pre, suf, hps⟩ := mem_joinAll_sub _ f hf
    rw [hfrag] at hps
    have := hasSubL_of_sub (env.marshal v).data f.data placeholderOpen pre suf hps hft
    rw [this] at hnp
    exact Bool.true_eq_false.mp hnp
  have hrepl : ∀ f ∈ env.fragments (env.marshal v), replacefunc env f = (f, none) := by
    intro f hf
    unfold replacefunc
    rw [if_pos (hfragnp f hf)]
  have hmapfst : ((env.fragments (env.marshal v)).map (replacefunc env)).map Prod.fst =
      env.fragments (env.marshal v) := by
    rw [List.map_map]
    have : ∀ f ∈ env.fragments (env.marshal v), (Prod.fst ∘ replacefunc env) f = id f := by
      intro f hf
      simp [Function.comp, hrepl f hf]
    rw [List.map_congr_left this, List.map_id]
  have herrs : ∀ p ∈ (env.fragments (env.marshal v)).map (replacefunc env), p.2 = none := by
    intro p hp
    obtain ⟨f, hf, hfp⟩ := List.mem_map.mp hp
    rw [← hfp, hrepl f hf]
  show (match ((env.fragments (env.marshal v)).map (replacefunc env)).foldl
      (fun acc p => match p.2 with | some er => some er | none => acc) none with
    | some er => Except.error er
    | none => env.unmarshal (joinAll
        (((env.fragments (env.marshal v)).map (replacefunc env)).map Prod.fst))) =
    Except.ok v
  rw [foldl_err_none _ herrs none]
  show env.unmarshal (joinAll
      (((env.fragments (env.marshal v)).map (replacefunc env)).map Prod.fst)) = Except.ok v
  rw [hmapfst, hfrag, hrt]

/-- Witness for C5 at a concrete environment whose codec round-trips the
string value and whose document holds no placeholder. -/
theorem expand_no_placeholder_id_witness :
    expandO envC5 (.ystr "hello") = .ok (.ystr "hello") :=
  expand_no_placeholder_id envC5 (.ystr "hello") rfl rfl (by decide)

theorem mk_data (s : String) : String.mk s.data = s := rfl

theorem yamlScalarValue_eq (s : String) :
    yamlScalarValue s =
      (if 2 ≤ s.data.length ∧ s.data.head? = some squoteChar ∧
          s.data.getLast? = some squoteChar then
        ScalarV.strS (String.mk ((s.data.drop 1).dropLast))
      else if numberReMatch s then ScalarV.numS s
      else ScalarV.strS s) := rfl

theorem numberRe_head_not_squote (v : String) (h : numberReMatch v = true) :
    v.data.head? ≠ some squoteChar := by
  intro hh
  cases hv : v.data with
  | nil => rw [hv] at hh; simp at hh
  | cons c rest =>
    rw [hv] at hh
    simp only [List.head?_cons, Option.some.injEq] at hh
    unfold numberReMatch at h
    rw [hv, hh] at h
    simp [stripSign, (by decide : (squoteChar = '+' || squoteChar = '-') = false),
      List.takeWhile_cons, (by decide : squoteChar.isDigit = false)] at h

/-- C6: For every placeholder whose expression evaluates to a string matching
the numeric pattern, the substitution step re-quotes the text in single
quotes, so that (under the modelled scalar-typing rule of the external YAML
reader) deserializing the expanded document yields that string and not a
number — while the unquoted text would have deserialized to a number. -/
theorem expand_requotes_numeric (env : ExpandEnv) (m : String × String) (v : String)
    (he : env.evalExpr m.2 = .ok (.s v)) (hv : numberReMatch v = true) :
    procMatch env m = (sqS ++ v ++ sqS, none) ∧
    yamlScalarValue (sqS ++ v ++ sqS) = .strS v ∧
    yamlScalarValue v = .numS v := by
  refine ⟨?_, ?_, ?_⟩
  · show (match env.evalExpr m.2 with
      | .error _ => ("", some GoErr.invalidFormat)
      | .ok w => renderEvalVal w) = (sqS ++ v ++ sqS, none)
    rw [he]
    show (if numberReMatch v = true then (sqS ++ v ++ sqS, (none : Option GoErr))
      else (v, none)) = (sqS ++ v ++ sqS, none)
    rw [if_pos hv]
  · have hdata : (sqS ++ v ++ sqS).data = squoteChar :: v.data ++ [squoteChar] := by
      simp [str_append_data, sqS]
    rw [yamlScalarValue_eq, hdata]
    rw [if_pos ⟨by simp, rfl, by rw [List.getLast?_concat]⟩]
    simp [List.cons_append, List.dropLast_concat, mk_data]
  · have hhead := numberRe_head_not_squote v hv
    rw [yamlScalarValue_eq]
    rw [if_neg (fun hcond => hhead hcond.2.1), if_pos hv]

/-- Witness for C6 at the expression result "123" from the claim's example. -/
theorem expand_requotes_numeric_witness :
    procMatch envC6 ("m", "x") = (sqS ++ "123" ++ sqS, none) ∧
    yamlScalarValue (sqS ++ "123" ++ sqS) = .strS "123" ∧
    yamlScalarValue "123" = .numS "123" :=
  expand_requotes_numeric envC6 ("m", "x") "123" rfl (by decide)

theorem lookupA_deleteA (k : String) (s : AList) : lookupA k (deleteA k s) = none := by
  induction s with
  | nil => rfl
  | cons p t ih =>
    by_cases h : p.1 = k
    · simp only [deleteA, List.filter_cons, h, beq_self_eq_true, Bool.not_true, if_false]
      exact ih
    · have hbeq : (p.1 == k) = false := beq_eq_false_iff_ne.mpr h
      simp only [deleteA, List.filter_cons, hbeq, Bool.not_false, if_true]
      simp only [lookupA, List.find?_cons, hbeq]
      exact ih

theorem testPhase_ok (st : StepRec) (s : AList) (r : StepRec × AList)
    (h : testPhase st s = .ok r) : r.1.bindCond = st.bindCond := by
  unfold testPhase at h
  cases hl : lookupA testRunnerKey s with
  | none =>
    rw [hl] at h
    simp only [Except.ok.injEq] at h
    rw [← h]
  | some v =>
    rw [hl] at h
    cases v with
    | str c =>
      simp only [Except.ok.injEq] at h
      rw [← h]
    | vmap m => simp at h
    | otherS => simp at h

theorem dumpPhase_ok (st : StepRec) (s : AList) (r : StepRec × AList)
    (h : dumpPhase st s = .ok r) :
    r.1.bindCond = st.bindCond ∧ lookupA dumpRunnerKey r.2 = none := by
  unfold dumpPhase at h
  cases hl : lookupA dumpRunnerKey s with
  | none =>
    rw [hl] at h
    simp only [Except.ok.injEq] at h
    constructor
    · rw [← h]
    · rw [← h]; exact hl
  | some v =>
    rw [hl] at h
    cases v with
    | str c =>
      simp only [Except.ok.injEq] at h
      constructor
      · rw [← h]
      · rw [← h]; exact lookupA_deleteA dumpRunnerKey s
    | vmap m => simp at h
    | otherS => simp at h

theorem bindPhase_no_dump (st : StepRec) (s : AList) (hd : lookupA dumpRunnerKey s = none) :
    bindPhase st s = .ok (st, s) := by
  unfold bindPhase
  rw [hd]

theorem popPhase_cons (o : OpReg) (st : StepRec) (k : String) (v : SVal) (t : AList) :
    popPhase o st ((k, v) :: t) =
      (if k = includeRunnerKey then
        match v with
        | SVal.str p => .ok { st with runnerKey := k, prim := some (.includeP p) }
        | _ => .error (.other "invalid include path")
      else if k = execRunnerKey then
        match v with
        | SVal.vmap m => .ok { st with runnerKey := k, prim := some (.execP m) }
        | _ => .error (.other "invalid exec command")
      else if o.httpNames.contains k then
        match v with
        | SVal.vmap m => .ok { st with runnerKey := k, prim := some (.httpP m) }
        | _ => .error (.other "invalid http request")
      else if o.dbNames.contains k then
        match v with
        | SVal.vmap m => .ok { st with runnerKey := k, prim := some (.dbP m) }
        | _ => .error (.other "invalid db query")
      else .error (.noClient k)) := rfl

theorem popPhase_ok (o : OpReg) (st : StepRec) (s : AList) (r : StepRec)
    (h : popPhase o st s = .ok r) : r.bindCond = st.bindCond := by
  cases s with
  | nil =>
    replace h : Except.ok st = Except.ok r := h
    simp only [Except.ok.injEq] at h
    rw [← h]
  | cons p t =>
    obtain ⟨k, v⟩ := p
    rw [popPhase_cons o st k v t] at h
    by_cases h1 : k = includeRunnerKey
    · rw [if_pos h1] at h
      cases v with
      | str q => simp only [Except.ok.injEq] at h; rw [← h]
      | vmap m => simp at h
      | otherS => simp at h
    · rw [if_neg h1] at h
      by_cases h2 : k = execRunnerKey
      · rw [if_pos h2] at h
        cases v with
        | str q => simp at h
        | vmap m => simp only [Except.ok.injEq] at h; rw [← h]
        | otherS => simp at h
      · rw [if_neg h2] at h
        by_cases h3 : o.httpNames.contains k = true
        · rw [if_pos h3] at h
          cases v with
          | str q => simp at h
          | vmap m => simp only [Except.ok.injEq] at h; rw [← h]
          | otherS => simp at h
        · rw [if_neg h3] at h
          by_cases h4 : o.dbNames.contains k = true
          · rw [if_pos h4] at h
            cases v with
            | str q => simp at h
            | vmap m => simp only [Except.ok.injEq] at h; rw [← h]
            | otherS => simp at h
          · rw [if_neg h4] at h
            simp at h

/-- C3: The claim says a step's `bind` key is consumed as a secondary action
configuring a bind side-runner that runs after test and dump; the code
instead re-checks the DUMP key in the bind block (`s[dumpRunnerKey]`,
operator.go line 301), which the dump block has already consumed, so the bind
side-runner is never configured in any successfully appended step, and a
`bind` key survives to primary-runner dispatch: the step configuration
`{bind: {x: "vars.x"}}` passes `validateStepKeys` (which classifies `bind`
as a side-runner key) yet `AppendStep` fails with `can not find client:
bind`. -/
theorem bind_key_never_configured :
    validateStepKeysM cfgBind = .ok () ∧
    appendStepModel o0 "" cfgBind = .error (.noClient "bind") ∧
    (∀ (o : OpReg) (key : String) (s : AList) (st : StepRec),
      appendStepModel o key s = .ok st → st.bindCond = none) := by
  refine ⟨rfl, rfl, ?_⟩
  intro o key s st h
  unfold appendStepModel at h
  cases h1 : testPhase (initStep key) s with
  | error e =>
    rw [h1] at h
    replace h : Except.error e = Except.ok st := h
    simp at h
  | ok p1 =>
    rw [h1] at h
    replace h : (match dumpPhase p1.1 p1.2 with
      | Except.error e => Except.error e
      | Except.ok p2 =>
        match bindPhase p2.1 p2.2 with
        | Except.error e => Except.error e
        | Except.ok p3 => popPhase o p3.1 p3.2) = Except.ok st := h
    cases h2 : dumpPhase p1.1 p1.2 with
    | error e =>
      rw [h2] at h
      replace h : Except.error e = Except.ok st := h
      simp at h
    | ok p2 =>
      rw [h2] at h
      replace h : (match bindPhase p2.1 p2.2 with
        | Except.error e => Except.error e
        | Except.ok p3 => popPhase o p3.1 p3.2) = Except.ok st := h
      obtain ⟨hb2, hnd⟩ := dumpPhase_ok p1.1 p1.2 p2 h2
      rw [bindPhase_no_dump p2.1 p2.2 hnd] at h
      replace h : popPhase o p2.1 p2.2 = Except.ok st := h
      rw [popPhase_ok o p2.1 p2.2 st h, hb2, testPhase_ok (initStep key) s p1 h1]
      rfl

/-- Witness for C3's universal part: a step carrying only a test condition is
appended successfully and its bind runner is unset. -/
theorem bind_key_never_configured_witness :
    (⟨"", some "true", none, none, "", none⟩ : StepRec).bindCond = none :=
  bind_key_never_configured.2.2 o0 "" cfgTest ⟨"", some "true", none, none, "", none⟩ rfl

/-- C8: In `operators.RunN` scenarios run strictly sequentially: when no
erroring scenario has `failFast` set, every scenario runs and `RunN` returns
nil even if individual scenarios failed; when the first erroring `failFast`
scenario is reached, the batch aborts there — only the scenarios up to and
including it have run — and its error is returned. -/
theorem runN_failfast :
    (∀ ops : List OpM, (∀ o ∈ ops, o.runErr = none ∨ o.failFast = false) →
      runN ops = (none, ops.length)) ∧
    (∀ (pre : List OpM) (o : OpM) (rest : List OpM) (e : GoErr),
      (∀ p ∈ pre, p.runErr = none ∨ p.failFast = false) →
      o.runErr = some e → o.failFast = true →
      runN (pre ++ o :: rest) = (some e, pre.length + 1)) := by
  constructor
  · intro ops
    induction ops with
    | nil => intro _; rfl
    | cons o t ih =>
      intro hall
      have ht := ih (fun p hp => hall p (List.mem_cons_of_mem o hp))
      rcases hall o (List.mem_cons_self o t) with ho | ho
      · show (match o.runErr with
          | some e => if o.failFast then (some e, 1) else ((runN t).1, (runN t).2 + 1)
          | none => ((runN t).1, (runN t).2 + 1)) = (none, (o :: t).length)
        rw [ho, ht]
        simp
      · show (match o.runErr with
          | some e => if o.failFast then (some e, 1) else ((runN t).1, (runN t).2 + 1)
          | none => ((runN t).1, (runN t).2 + 1)) = (none, (o :: t).length)
        cases he : o.runErr with
        | none => rw [ht]; simp
        | some e =>
          rw [ho, ht]
          simp
  · intro pre
    induction pre with
    | nil =>
      intro o rest e _ he hf
      show (match o.runErr with
        | some e => if o.failFast then (some e, 1)
            else ((runN rest).1, (runN rest).2 + 1)
        | none => ((runN rest).1, (runN rest).2 + 1)) = (some e, 1)
      rw [he, hf]
      simp
    | cons p t ih =>
      intro o rest e hall he hf
      have hrec := ih o rest e (fun q hq => hall q (List.mem_cons_of_mem p hq)) he hf
      show (match p.runErr with
        | some e2 => if p.failFast then (some e2, 1)
            else ((runN (t ++ o :: rest)).1, (runN (t ++ o :: rest)).2 + 1)
        | none => ((runN (t ++ o :: rest)).1, (runN (t ++ o :: rest)).2 + 1)) =
        (some e, (p :: t).length + 1)
      rcases hall p (List.mem_cons_self p t) with hp | hp
      · rw [hp, hrec]
        simp
      · cases hq : p.runErr with
        | none => rw [hrec]; simp
        | some e2 =>
          rw [hp, hrec]
          simp

/-- Witness for C8: a failing non-failFast scenario is passed over, the next
scenario's failFast error aborts the batch after two scenarios. -/
theorem runN_failfast_witness :
    runN [⟨some (.other "soft"), false⟩, ⟨some (.other "x"), true⟩, ⟨none, false⟩] =
      (some (.other "x"), 2) := by
  have h := runN_failfast.2 [⟨some (.other "soft"), false⟩] ⟨some (.other "x"), true⟩
    [⟨none, false⟩] (.other "x")
    (by intro p hp; simp at hp; rw [hp]; right; rfl) rfl rfl
  exact h

theorem record9_positional (keys : List String) (st : Store9) (v : Option Nat) :
    record9 false keys st v = .ok { st with steps := st.steps ++ [v] } := by
  unfold record9
  rw [if_neg (by simp)]

theorem sideBlock9_positional_none (keys : List String) (i : Nat) (st : Store9)
    (hlen : st.steps.length = i) :
    sideBlock9 false keys i none st = .ok { st with steps := st.steps ++ [none] } := by
  show (if st.steps.length < i + 1 then record9 false keys st none else Except.ok st) =
    Except.ok { st with steps := st.steps ++ [none] }
  rw [if_pos (by omega), record9_positional]

theorem sideBlock9_positional_full (keys : List String) (i : Nat) (st : Store9)
    (hlen : st.steps.length = i + 1) :
    sideBlock9 false keys i none st = .ok st := by
  show (if st.steps.length < i + 1 then record9 false keys st none else Except.ok st) =
    Except.ok st
  rw [if_neg (by omega)]

/-- C9 (amended): In positional store mode, for every step that runs at least
one side-runner, if the step's runners recorded nothing (the positional list
still holds exactly `i` entries when the side phase starts and no side-runner
records on its own), the operator inserts exactly one nil placeholder into
the step's slot, keeping the list index-aligned.  (In named-step mode the
guard consults the positional list, which never grows there, so the claim
fails — see the counterexample.) -/
theorem side_placeholder_positional (keys : List String) (i : Nat) (f : SideFlags)
    (orc : SideOracle) (st : Store9)
    (hact : f.hasTest = true ∨ f.hasDump = true ∨ f.hasBind = true)
    (ht : f.hasTest = true → orc.testRec = none)
    (hd : f.hasDump = true → orc.dumpRec = none)
    (hb : f.hasBind = true → orc.bindRec = none)
    (hlen : st.steps.length = i) :
    sidePhase9 false keys i f orc st = .ok { st with steps := st.steps ++ [none] } := by
  have hlen2 : ({ st with steps := st.steps ++ [none] } : Store9).steps.length = i + 1 := by
    simp [hlen]
  obtain ⟨ft, fd, fb⟩ := f
  cases ft <;> cases fd <;> cases fb
  case false.false.false => rcases hact with h | h | h <;> simp at h
  case false.false.true =>
    show sideBlock9 false keys i orc.bindRec st = _
    rw [hb rfl]
    exact sideBlock9_positional_none keys i st hlen
  case false.true.false =>
    show (match sideBlock9 false keys i orc.dumpRec st with
      | .error e => Except.error e
      | .ok st2 => Except.ok st2) = _
    rw [hd rfl, sideBlock9_positional_none keys i st hlen]
  case false.true.true =>
    show (match sideBlock9 false keys i orc.dumpRec st with
      | .error e => Except.error e
      | .ok st2 => sideBlock9 false keys i orc.bindRec st2) = _
    rw [hd rfl, hb rfl, sideBlock9_positional_none keys i st hlen]
    show sideBlock9 false keys i none { st with steps := st.steps ++ [none] } = _
    exact sideBlock9_positional_full keys i _ hlen2
  case true.false.false =>
    show (match sideBlock9 false keys i orc.testRec st with
      | .error e => Except.error e
      | .ok st1 => Except.ok st1) = _
    rw [ht rfl, sideBlock9_positional_none keys i st hlen]
  case true.false.true =>
    show (match sideBlock9 false keys i orc.testRec st with
      | .error e => Except.error e
      | .ok st1 => sideBlock9 false keys i orc.bindRec st1) = _
    rw [ht rfl, hb rfl, sideBlock9_positional_none keys i st hlen]
    show sideBlock9 false keys i none { st with steps := st.steps ++ [none] } = _
    exact sideBlock9_positional_full keys i _ hlen2
  case true.true.false =>
    show (match sideBlock9 false keys i orc.testRec st with
      | .error e => Except.error e
      | .ok st1 =>
        match sideBlock9 false keys i orc.dumpRec st1 with
        | .error e => Except.error e
        | .ok st2 => Except.ok st2) = _
    rw [ht rfl, hd rfl, sideBlock9_positional_none keys i st hlen]
    show (match sideBlock9 false keys i none { st with steps := st.steps ++ [none] } with
      | .error e => Except.error e
      | .ok st2 => Except.ok st2) = _
    rw [sideBlock9_positional_full keys i _ hlen2]
  case true.true.true =>
    show (match sideBlock9 false keys i orc.testRec st with
      | .error e => Except.error e
      | .ok st1 =>
        match sideBlock9 false keys i orc.dumpRec st1 with
        | .error e => Except.error e
        | .ok st2 => sideBlock9 false keys i orc.bindRec st2) = _
    rw [ht rfl, hd rfl, hb rfl, sideBlock9_positional_none keys i st hlen]
    show (match sideBlock9 false keys i none { st with steps := st.steps ++ [none] } with
      | .error e => Except.error e
      | .ok st2 => sideBlock9 false keys i none st2) = _
    rw [sideBlock9_positional_full keys i _ hlen2]
    show sideBlock9 false keys i none { st with steps := st.steps ++ [none] } = _
    exact sideBlock9_positional_full keys i _ hlen2

/-- Witness for C9's amended theorem: one step with only a test condition in
positional mode leaves exactly one nil placeholder. -/
theorem side_placeholder_positional_witness :
    sidePhase9 false [] 0 ⟨true, false, false⟩ ⟨none, none, none⟩ ⟨[], []⟩ =
      .ok ⟨[none], []⟩ :=
  side_placeholder_positional [] 0 ⟨true, false, false⟩ ⟨none, none, none⟩ ⟨[], []⟩
    (Or.inl rfl) (fun _ => rfl) (fun hcon => by cases hcon) (fun hcon => by cases hcon) rfl

/-- C9 (counterexample): the claim as stated quantifies over every step, but
in named-step mode the placeholder guard consults the positional list, which
never grows there, so a named step with a test and a dump side-runner does
not insert exactly one placeholder into its own slot: with a single named
step the second insertion indexes past the step list (a Go runtime panic),
and with two named steps the second insertion lands in the NEXT step's slot,
two entries total. -/
theorem side_placeholder_maps_cex :
    sidePhase9 true ["s0"] 0 ⟨true, true, false⟩ ⟨none, none, none⟩ ⟨[], []⟩ =
      .error .indexOutOfRange ∧
    sidePhase9 true ["s0", "s1"] 0 ⟨true, true, false⟩ ⟨none, none, none⟩ ⟨[], []⟩ =
      .ok ⟨[], [("s0", none), ("s1", none)]⟩ := ⟨rfl, rfl⟩

theorem stepKeysOf_cons_none (t : List (Option String)) :
    stepKeysOf (none :: t) = stepKeysOf t := rfl

theorem stepKeysOf_cons_some (a : String) (t : List (Option String)) :
    stepKeysOf (some a :: t) = a :: stepKeysOf t := rfl

theorem stepKeysOf_length_iff (d : List (Option String)) :
    (stepKeysOf d).length = d.length ↔ ∀ x ∈ d, x ≠ none := by
  induction d with
  | nil => simp [stepKeysOf]
  | cons x t ih =>
    cases x with
    | none =>
      rw [stepKeysOf_cons_none]
      simp only [List.length_cons]
      constructor
      · intro h
        have hle : (stepKeysOf t).length ≤ t.length := List.length_filterMap_le id t
        exact absurd h (by omega)
      · intro h
        exact absurd rfl (h none (List.mem_cons_self none t))
    | some a =>
      rw [stepKeysOf_cons_some]
      simp only [List.length_cons]
      constructor
      · intro h
        intro x hx
        rcases List.mem_cons.mp hx with hx | hx
        · rw [hx]; simp
        · exact (ih.mp (by omega)) x hx
      · intro h
        have h2 := ih.mpr (fun x hx => h x (List.mem_cons_of_mem _ hx))
        omega

/-- C10: Named-step mode is selected exactly when every step was declared
with a name (the collected step keys are as many as the steps); otherwise the
mode selection silently yields positional mode without error, and the step
display name renders `'<desc>'.steps[<i>]` in positional mode and
`'<desc>'.steps.<key>` in named mode. -/
theorem useMaps_iff_all_named :
    (∀ d : List (Option String), useMapsOf d = true ↔ ∀ x ∈ d, x ≠ none) ∧
    (∀ (desc : String) (keys : List String) (i : Nat),
      stepNameM desc false keys i = sqS ++ desc ++ sqS ++ ".steps[" ++ toString i ++ "]") ∧
    (∀ (desc : String) (keys : List String) (i : Nat),
      stepNameM desc true keys i = sqS ++ desc ++ sqS ++ ".steps." ++ keys.getD i "") := by
  refine ⟨?_, ?_, ?_⟩
  · intro d
    unfold useMapsOf
    rw [beq_iff_eq]
    exact stepKeysOf_length_iff d
  · intro desc keys i
    unfold stepNameM
    rw [if_neg (by simp)]
  · intro desc keys i
    unfold stepNameM
    rw [if_pos rfl]

/-- Witness for C10: a fully named step list selects named mode, and in
positional mode the display name of step 0 is the indexed form. -/
theorem useMaps_iff_all_named_witness :
    useMapsOf [some "a"] = true ∧
    stepNameM "d" false [] 0 = sqS ++ "d" ++ sqS ++ ".steps[" ++ toString 0 ++ "]" :=
  ⟨(useMaps_iff_all_named.1 [some "a"]).mpr (by decide),
   useMaps_iff_all_named.2.1 "d" [] 0⟩

end Runn
